import Mathlib

/-!
Shallow embedding of the search component of a classical-planning system
(the eager best-first search engine, the iterated meta-engine, the weighted
evaluator and the memoised component-binding layer), together with theorems
about its behaviour.

Source files embedded:
  src/search/evaluators/weighted_evaluator.cc
  src/search/search_engines/eager_search.cc
  src/search/search_engines/iterated_search.cc
  src/search/open_lists/best_first_open_list.cc

Machine `int` values are modelled as unbounded `Int`; the search code assumes
no overflow on g-value arithmetic, and the one place where the source guards
against overflow (the weighted evaluator) is modelled explicitly via the
32-bit limits.  Evaluators are modelled as pure functions of the state id and
the g value supplied by the evaluation context; statistics counters are `Nat`.
-/

/-- Exit codes. Modelled from the spec: utils::ExitCode is not under src;
the interface table gives SUCCESS = 0, SEARCH_UNSOLVED_INCOMPLETE = 11,
SEARCH_INPUT_ERROR = 31. -/
inductive ExitCode where
  | SUCCESS
  | SEARCH_UNSOLVED_INCOMPLETE
  | SEARCH_INPUT_ERROR
deriving DecidableEq

/-- Numeric value of each exit code, from the interface table of the spec. -/
def ExitCode.code : ExitCode → Nat
  | .SUCCESS => 0
  | .SEARCH_UNSOLVED_INCOMPLETE => 11
  | .SEARCH_INPUT_ERROR => 31

/-- EvaluationResult::INFTY, the distinguished dead-end value
(numeric_limits of int, max). -/
def INFTY : Int := 2147483647

/-- Smallest value of a signed 32-bit integer. -/
def INT_MIN32 : Int := -2147483648

/-- Largest value of a signed 32-bit integer. -/
def INT_MAX32 : Int := 2147483647

/-- Modelled from the spec: utils::is_product_within_limits (utils/math) is
not under src; the spec requires that the weighted product does not overflow
a signed 32-bit integer, i.e. that factor1 * factor2 lies within
[lower_limit, upper_limit]. -/
def is_product_within_limits (factor1 factor2 lower_limit upper_limit : Int) : Bool :=
  decide (lower_limit ≤ factor1 * factor2 ∧ factor1 * factor2 ≤ upper_limit)

/-- EvaluationResult: a value (INFTY encodes dead end)
plus the preferred operators. -/
structure EvaluationResult where
  value : Int
  preferred_operators : List Nat
deriving DecidableEq

/-- WeightedEvaluator::compute_result.  The child evaluator has already been
evaluated to child_value (eval_context.get_evaluator_value_or_infinity).
If the value is not INFTY the source asserts that value * weight is within
the signed 32-bit limits and then multiplies; the assertion is modelled as a
guard, none meaning the fatal assertion failure.  No preferred operators are
produced. -/
def WeightedEvaluator.compute_result (weight : Int) (child_value : Int) :
    Option EvaluationResult :=
  if child_value ≠ INFTY then
    if is_product_within_limits child_value weight INT_MIN32 INT_MAX32 then
      some { value := child_value * weight, preferred_operators := [] }
    else
      none
  else
    some { value := child_value, preferred_operators := [] }

/-- Capability record of an evaluator as seen by the EagerSearch constructor:
whether it caches its estimates (Evaluator::does_cache_estimates). -/
structure LazyEvaluatorInfo where
  does_cache_estimates : Bool
deriving DecidableEq

/-- SearchStatus of the search engines.  OUT_OF_FUEL is a modelling artefact:
the inner while(true) selection loop of EagerSearch::step is run on explicit
fuel, and OUT_OF_FUEL marks fuel exhaustion (the source loop has no such
case; every source behaviour with n iterations is captured by fuel ≥ n). -/
inductive SearchStatus where
  | IN_PROGRESS
  | TIMEOUT
  | FAILED
  | SOLVED
  | OUT_OF_FUEL
deriving DecidableEq

/-! ## Iterated search (iterated_search.cc) -/

/-- Configuration of IteratedSearch.  The child engines are abstracted:
run_phase idx b runs the engine of phase idx with cost bound overridden to b
(none when pass_bound is false and the bound of the child is left alone) and
returns the plan it found, if any.  plan_cost is calculate_plan_cost over the
task (real operator costs). -/
structure IteratedConfig where
  num_phases : Nat
  pass_bound : Bool
  repeat_last_phase : Bool
  continue_on_fail : Bool
  continue_on_solve : Bool
  run_phase : Nat → Option Int → Option (List Nat)
  plan_cost : List Nat → Int

/-- Mutable state of IteratedSearch.  current_plan models the plan stored by
set_plan (and thereby the solution_found flag read by found_solution);
saved_plans models the sequence of plan_manager.save_plan calls;
last_child_bound is a ghost field recording the bound override passed to the
most recent child engine (none when no child has run). -/
structure IteratedState where
  phase : Nat
  best_bound : Int
  last_phase_found_solution : Bool
  iterated_found_solution : Bool
  current_plan : Option (List Nat)
  saved_plans : List (List Nat)
  last_child_bound : Option (Option Int)

/-- Initial internal state of IteratedSearch: phase 0, best_bound = bound,
no solution yet. -/
def IteratedSearch.init (bound : Int) : IteratedState :=
  { phase := 0
    best_bound := bound
    last_phase_found_solution := false
    iterated_found_solution := false
    current_plan := none
    saved_plans := []
    last_child_bound := none }

/-- IteratedSearch::create_current_phase, reduced to the index of the engine
that is materialised (none when the step returns without running a child).
Past the last phase, the last engine is rebuilt only when repeat_last_phase
and the last phase found a solution. -/
def IteratedSearch.create_current_phase (cfg : IteratedConfig) (st : IteratedState) :
    Option Nat :=
  if st.phase ≥ cfg.num_phases then
    if cfg.repeat_last_phase && st.last_phase_found_solution then
      some (cfg.num_phases - 1)
    else
      none
  else
    some st.phase

/-- IteratedSearch::step_return_value. -/
def IteratedSearch.step_return_value (cfg : IteratedConfig) (st : IteratedState) :
    SearchStatus :=
  if st.last_phase_found_solution then
    if cfg.continue_on_solve then .IN_PROGRESS else .SOLVED
  else
    if cfg.continue_on_fail then .IN_PROGRESS
    else if st.iterated_found_solution then .SOLVED else .FAILED

/-- IteratedSearch::step.  When no child is materialised the step returns
SOLVED or FAILED according to found_solution (the set_plan flag).  Otherwise
the bound of the child is overridden with best_bound when pass_bound holds,
the child runs, and a found plan is saved, remembered via set_plan and used
to lower best_bound exactly when its cost is strictly below best_bound. -/
def IteratedSearch.step (cfg : IteratedConfig) (st : IteratedState) :
    IteratedState × SearchStatus :=
  match IteratedSearch.create_current_phase cfg st with
  | none => (st, if st.current_plan.isSome then .SOLVED else .FAILED)
  | some idx =>
    let child_bound : Option Int := if cfg.pass_bound then some st.best_bound else none
    let st1 : IteratedState :=
      { st with phase := st.phase + 1, last_child_bound := some child_bound }
    let result := cfg.run_phase idx child_bound
    let last_found := result.isSome
    let st2 : IteratedState :=
      { st1 with
        last_phase_found_solution := last_found
        iterated_found_solution := st1.iterated_found_solution || last_found }
    let st3 : IteratedState :=
      match result with
      | some found_plan =>
        if cfg.plan_cost found_plan < st2.best_bound then
          { st2 with
            saved_plans := st2.saved_plans ++ [found_plan]
            best_bound := cfg.plan_cost found_plan
            current_plan := some found_plan }
        else st2
      | none => st2
    (st3, IteratedSearch.step_return_value cfg st3)

/-- Modelled from the spec (refinement target): the return-status table of
the iterated-search step, stated from the spec table independently of the
code: last_found true and continue_on_solve gives IN_PROGRESS, last_found
true without continue_on_solve gives SOLVED, last_found false with
continue_on_fail gives IN_PROGRESS, and otherwise SOLVED if ever solved,
else FAILED. -/
def spec_step_return_table (last_found continue_solve continue_fail ever_solved : Bool) :
    SearchStatus :=
  if last_found then
    if continue_solve then .IN_PROGRESS else .SOLVED
  else
    if continue_fail then .IN_PROGRESS
    else if ever_solved then .SOLVED else .FAILED

/-- The search driver loop of the meta engine (SearchEngine::search is not
under src; the spec describes it as running step while IN_PROGRESS). -/
def IteratedSearch.run (cfg : IteratedConfig) :
    Nat → IteratedState × SearchStatus → IteratedState × SearchStatus
  | 0, x => x
  | Nat.succ n, (st, s) =>
    if s = .IN_PROGRESS then IteratedSearch.run cfg n (IteratedSearch.step cfg st)
    else (st, s)

/-! ## Search space nodes -/

/-- Node lifecycle states, as in the SearchNodeInfo enum. -/
inductive NodeStatus where
  | NEW
  | OPEN
  | CLOSED
  | DEAD_END
deriving DecidableEq

/-- Modelled from the spec: SearchNodeInfo (search_space) is not under src.
The spec data model gives status (initially new), g (adjusted path cost),
real_g (path cost with unadjusted operator costs) and the back-link
(parent_state_id, creating_op), the latter ⊥ for the initial node. -/
structure SearchNodeInfo where
  status : NodeStatus
  g : Int
  real_g : Int
  parent_state_id : Option Nat
  creating_op : Option Nat
deriving DecidableEq

/-- Modelled from the spec: SearchNode::open_initial sets status open with
g = real_g = 0 and no parent. -/
def nodeOpenInitial : SearchNodeInfo :=
  { status := .OPEN, g := 0, real_g := 0, parent_state_id := none, creating_op := none }

/-- Modelled from the spec: SearchNode::open(parent, op, adjusted_cost) sets
status open, g from the adjusted cost, real_g from the unadjusted cost, and
the parent back-link. -/
def nodeOpenFrom (parent : SearchNodeInfo) (pid op : Nat)
    (adjusted_cost real_cost : Int) : SearchNodeInfo :=
  { status := .OPEN
    g := parent.g + adjusted_cost
    real_g := parent.real_g + real_cost
    parent_state_id := some pid
    creating_op := some op }

/-- Modelled from the spec: SearchNode::close sets status closed. -/
def nodeClose (n : SearchNodeInfo) : SearchNodeInfo :=
  { n with status := .CLOSED }

/-- Modelled from the spec: SearchNode::mark_as_dead_end sets status
dead_end. -/
def nodeMarkDeadEnd (n : SearchNodeInfo) : SearchNodeInfo :=
  { n with status := .DEAD_END }

/-- Modelled from the spec: SearchNode::reopen(parent, op, adjusted_cost)
sets status open again and rewrites g, real_g and the back-link like open. -/
def nodeReopenFrom (parent : SearchNodeInfo) (pid op : Nat)
    (adjusted_cost real_cost : Int) : SearchNodeInfo :=
  { status := .OPEN
    g := parent.g + adjusted_cost
    real_g := parent.real_g + real_cost
    parent_state_id := some pid
    creating_op := some op }

/-- Modelled from the spec: SearchNode::update_parent rewrites g, real_g and
the back-link without touching the status. -/
def nodeUpdateParent (n : SearchNodeInfo) (parent : SearchNodeInfo) (pid op : Nat)
    (adjusted_cost real_cost : Int) : SearchNodeInfo :=
  { n with
    g := parent.g + adjusted_cost
    real_g := parent.real_g + real_cost
    parent_state_id := some pid
    creating_op := some op }

/-! ## Best-first open list (best_first_open_list.cc)

The bucketed map from key to FIFO bucket is modelled as the insertion-ordered
list of (key, id) entries: remove_min takes the first inserted entry among
those with minimal key, which is exactly the first element of the first
bucket. -/

/-- Minimum key of the entries, folded from a seed. -/
def minKeyFrom (m : Int) : List (Int × Nat) → Int
  | [] => m
  | (k, _) :: t => minKeyFrom (min m k) t

/-- Remove the first entry carrying the given key. -/
def removeFirstWithKey (k : Int) : List (Int × Nat) → Option (Nat × List (Int × Nat))
  | [] => none
  | (k1, id) :: t =>
    if k1 = k then some (id, t)
    else
      match removeFirstWithKey k t with
      | some (id1, t1) => some (id1, (k1, id) :: t1)
      | none => none

/-- BestFirstOpenList::remove_min: first element of the bucket with minimal
key, together with the remaining entries. -/
def removeMin (l : List (Int × Nat)) : Option ((Int × Nat) × List (Int × Nat)) :=
  match l with
  | [] => none
  | (k, id) :: t =>
    let m := minKeyFrom k t
    match removeFirstWithKey m ((k, id) :: t) with
    | some (id1, rest) => some ((m, id1), rest)
    | none => none

/-! ## Eager search (eager_search.cc) -/

/-- SearchStatistics counters (inc_expanded and friends). -/
structure SearchStatistics where
  expanded : Nat
  evaluated_states : Nat
  generated : Nat
  dead_ends : Nat
  reopened : Nat
deriving DecidableEq

/-- Configuration of EagerSearch.  States are identified with their interned
StateID (a Nat); operators with their id.  Evaluators are pure functions of
state and g value: lazyValue is the lazy_evaluator recomputation
(get_evaluator_value_or_infinity), openIsDeadEnd is open_list->is_dead_end
on the context, openKey the open-list insertion key.  applicableOps is the
successor-generator output after pruning_method->prune_operators; opCost is
the unadjusted operator cost and adjustedCost the cost_type-adjusted cost.
Preferred-operator collection only sets the is_preferred flag of successor
contexts, which the embedded best-first open list (pref_only = false)
ignores, so it is not modelled. -/
structure EagerConfig where
  reopen_closed_nodes : Bool
  bound : Int
  lazy_evaluator : Option LazyEvaluatorInfo
  lazyValue : Nat → Int → Int
  openIsDeadEnd : Nat → Int → Bool
  openKey : Nat → Int → Int
  isGoal : Nat → Bool
  init_state : Nat
  applicableOps : Nat → List Nat
  opCost : Nat → Int
  adjustedCost : Nat → Int
  succState : Nat → Nat → Nat

/-- EagerSearch::EagerSearch.  The constructor body checks that a supplied
lazy_evaluator caches its estimates and otherwise exits fatally with
SEARCH_INPUT_ERROR (before any search starts); on success the engine is
constructed. -/
def EagerSearch.construct (cfg : EagerConfig) : Except ExitCode EagerConfig :=
  match cfg.lazy_evaluator with
  | some lazy_eval =>
    if !lazy_eval.does_cache_estimates then .error .SEARCH_INPUT_ERROR
    else .ok cfg
  | none => .ok cfg

/-- Whole mutable state of a running EagerSearch: the search-space node per
StateID, the open list, the persistent estimate cache of the lazy_evaluator
(is_estimate_cached / get_cached_estimate), the statistics, a ghost
per-state count of expansions (each inc_expanded is attributed to the closed
state), and the solution flag set by check_goal_and_set_plan. -/
structure EagerState where
  nodes : Nat → SearchNodeInfo
  open_list : List (Int × Nat)
  lazy_cache : Nat → Option Int
  stats : SearchStatistics
  expanded_count : Nat → Nat
  solution_found : Bool

/-- Replace the node record of one state. -/
def setNode (σ : EagerState) (id : Nat) (n : SearchNodeInfo) : EagerState :=
  { σ with nodes := fun j => if j = id then n else σ.nodes j }

/-- open_list->insert appends to the FIFO bucket of the key. -/
def insertOpen (σ : EagerState) (key : Int) (id : Nat) : EagerState :=
  { σ with open_list := σ.open_list ++ [(key, id)] }

/-- statistics.inc_expanded. -/
def inc_expanded (σ : EagerState) : EagerState :=
  { σ with stats := { σ.stats with expanded := σ.stats.expanded + 1 } }

/-- statistics.inc_generated. -/
def inc_generated (σ : EagerState) : EagerState :=
  { σ with stats := { σ.stats with generated := σ.stats.generated + 1 } }

/-- statistics.inc_evaluated_states. -/
def inc_evaluated_states (σ : EagerState) : EagerState :=
  { σ with stats := { σ.stats with evaluated_states := σ.stats.evaluated_states + 1 } }

/-- statistics.inc_dead_ends. -/
def inc_dead_ends (σ : EagerState) : EagerState :=
  { σ with stats := { σ.stats with dead_ends := σ.stats.dead_ends + 1 } }

/-- statistics.inc_reopened. -/
def inc_reopened (σ : EagerState) : EagerState :=
  { σ with stats := { σ.stats with reopened := σ.stats.reopened + 1 } }

/-- Bump the ghost per-state expansion counter. -/
def bumpExpandedCount (σ : EagerState) (id : Nat) : EagerState :=
  { σ with expanded_count := fun j => if j = id then σ.expanded_count j + 1 else σ.expanded_count j }

/-- node->close(); statistics.inc_expanded(), with the ghost per-state
counter bumped alongside. -/
def closeAndCount (σ : EagerState) (id : Nat) : EagerState :=
  bumpExpandedCount (inc_expanded (setNode σ id (nodeClose (σ.nodes id)))) id

/-- Outcome of one iteration of the while(true) selection loop in
EagerSearch::step: the open list was empty (FAILED), the iteration hit a
continue, or a node was selected for expansion (the break). -/
inductive PopResult where
  | failed
  | cont (σ : EagerState)
  | selected (σ : EagerState) (id : Nat)

/-- One iteration of the while(true) loop of EagerSearch::step: pop the
minimum, skip stale entries whose node is already closed, run the lazy
re-evaluation block, and otherwise close the node and count the expansion.
Evaluating the lazy_evaluator stores the recomputed estimate in its
persistent cache. -/
def EagerSearch.popIteration (cfg : EagerConfig) (σ : EagerState) : PopResult :=
  match removeMin σ.open_list with
  | none => .failed
  | some ((_, id), rest) =>
    let σ1 : EagerState := { σ with open_list := rest }
    let n := σ1.nodes id
    if n.status = .CLOSED then .cont σ1
    else if cfg.lazy_evaluator.isSome then
      if n.status = .DEAD_END then .cont σ1
      else
        match σ1.lazy_cache id with
        | some old_h =>
          let new_h := cfg.lazyValue id n.g
          let σ2 : EagerState :=
            { σ1 with lazy_cache := fun j => if j = id then some new_h else σ1.lazy_cache j }
          if cfg.openIsDeadEnd id n.g then
            .cont (inc_dead_ends (setNode σ2 id (nodeMarkDeadEnd n)))
          else if new_h ≠ old_h then
            .cont (insertOpen σ2 (cfg.openKey id n.g) id)
          else
            .selected (closeAndCount σ2 id) id
        | none => .selected (closeAndCount σ1 id) id
    else .selected (closeAndCount σ1 id) id

/-- Result of running the selection loop to completion on explicit fuel. -/
inductive SelectResult where
  | failed
  | out_of_fuel
  | selected (id : Nat)
deriving DecidableEq

/-- The while(true) selection loop of EagerSearch::step, on fuel. -/
def EagerSearch.selectLoop (cfg : EagerConfig) : Nat → EagerState → EagerState × SelectResult
  | 0, σ => (σ, .out_of_fuel)
  | Nat.succ fuel, σ =>
    match EagerSearch.popIteration cfg σ with
    | .failed => (σ, .failed)
    | .cont σ1 => EagerSearch.selectLoop cfg fuel σ1
    | .selected σ1 id => (σ1, .selected id)

/-- Body of the successor loop of EagerSearch::step for one applicable
operator: skip when real_g plus the unadjusted cost reaches the bound,
otherwise generate the successor and handle the new / cheaper-path cases,
with reopening gated on reopen_closed_nodes. -/
def EagerSearch.processSuccessor (cfg : EagerConfig) (id : Nat) (σ : EagerState)
    (op : Nat) : EagerState :=
  let n := σ.nodes id
  if n.real_g + cfg.opCost op ≥ cfg.bound then σ
  else
    let succ := cfg.succState id op
    let σg := inc_generated σ
    let sn := σg.nodes succ
    if sn.status = .DEAD_END then σg
    else if sn.status = .NEW then
      let succ_g := n.g + cfg.adjustedCost op
      let σe := inc_evaluated_states σg
      if cfg.openIsDeadEnd succ succ_g then
        inc_dead_ends (setNode σe succ (nodeMarkDeadEnd sn))
      else
        insertOpen (setNode σe succ (nodeOpenFrom n id op (cfg.adjustedCost op) (cfg.opCost op)))
          (cfg.openKey succ succ_g) succ
    else if n.g + cfg.adjustedCost op < sn.g then
      if cfg.reopen_closed_nodes then
        let σr := if sn.status = .CLOSED then inc_reopened σg else σg
        insertOpen (setNode σr succ (nodeReopenFrom n id op (cfg.adjustedCost op) (cfg.opCost op)))
          (cfg.openKey succ (n.g + cfg.adjustedCost op)) succ
      else
        setNode σg succ (nodeUpdateParent sn n id op (cfg.adjustedCost op) (cfg.opCost op))
    else σg

/-- Expansion part of EagerSearch::step after a node was selected: goal test
(check_goal_and_set_plan), then the successor loop over the pruned
applicable operators. -/
def EagerSearch.expandPhase (cfg : EagerConfig) (σ : EagerState) (id : Nat) :
    EagerState × SearchStatus :=
  if cfg.isGoal id then ({ σ with solution_found := true }, .SOLVED)
  else ((cfg.applicableOps id).foldl (EagerSearch.processSuccessor cfg id) σ, .IN_PROGRESS)

/-- EagerSearch::step: selection loop followed by the expansion phase. -/
def EagerSearch.step (cfg : EagerConfig) (fuel : Nat) (σ : EagerState) :
    EagerState × SearchStatus :=
  match EagerSearch.selectLoop cfg fuel σ with
  | (σ1, .failed) => (σ1, .FAILED)
  | (σ1, .out_of_fuel) => (σ1, .OUT_OF_FUEL)
  | (σ1, .selected id) => EagerSearch.expandPhase cfg σ1 id

/-- The all-new search space with empty open list and zeroed statistics. -/
def EagerSearch.emptyState : EagerState :=
  { nodes := fun _ => { status := .NEW, g := 0, real_g := 0, parent_state_id := none, creating_op := none }
    open_list := []
    lazy_cache := fun _ => none
    stats := { expanded := 0, evaluated_states := 0, generated := 0, dead_ends := 0, reopened := 0 }
    expanded_count := fun _ => 0
    solution_found := false }

/-- EagerSearch::initialize: evaluate the initial state (counted); when the
open list reports a dead end nothing is inserted, otherwise the initial node
is opened (open_initial) and inserted. -/
def EagerSearch.init (cfg : EagerConfig) : EagerState :=
  let σ := inc_evaluated_states EagerSearch.emptyState
  if cfg.openIsDeadEnd cfg.init_state 0 then σ
  else
    insertOpen (setNode σ cfg.init_state nodeOpenInitial)
      (cfg.openKey cfg.init_state 0) cfg.init_state

/-- The search driver loop (SearchEngine::search is not under src; the spec
describes it as running step while IN_PROGRESS). -/
def EagerSearch.run (cfg : EagerConfig) (fuel : Nat) :
    Nat → EagerState × SearchStatus → EagerState × SearchStatus
  | 0, x => x
  | Nat.succ n, (σ, s) =>
    if s = .IN_PROGRESS then EagerSearch.run cfg fuel n (EagerSearch.step cfg fuel σ)
    else (σ, s)

/-! ## Component binding (get_task_specific / create_task_specific) -/

/-- A task-independent blueprint node: its identity (the C++ object address,
modelled as a Nat) and its child blueprints. -/
inductive Blueprint where
  | mk (id : Nat) (children : List Blueprint)

/-- Identity of the root of a blueprint. -/
def Blueprint.ident : Blueprint → Nat
  | .mk i _ => i

/-- The ComponentMap together with the allocator of fresh concrete-instance
identities: the table maps (task identity, blueprint identity) to the shared
concrete instance, and next_instance numbers constructions. -/
structure ComponentMap where
  table : List ((Nat × Nat) × Nat)
  next_instance : Nat
deriving DecidableEq

/-- Lookup in the memo table (first, i.e. most recent, binding wins). -/
def lookupMemo (table : List ((Nat × Nat) × Nat)) (key : Nat × Nat) : Option Nat :=
  match table with
  | [] => none
  | (k, v) :: t => if k = key then some v else lookupMemo t key

mutual
/-- get_task_specific / create_task_specific of a task-independent component:
if the memo already binds (task, this), reuse the stored instance without
constructing; otherwise bind the children recursively, construct a fresh
concrete instance, and record it in the memo. -/
def get_task_specific (task : Nat) : Blueprint → ComponentMap → Nat × ComponentMap
  | .mk i cs, m =>
    match lookupMemo m.table (task, i) with
    | some c => (c, m)
    | none =>
      let r := get_task_specific_children task cs m
      (r.2.next_instance,
        { table := ((task, i), r.2.next_instance) :: r.2.table
          next_instance := r.2.next_instance + 1 })

/-- Bind a list of child blueprints left to right, threading the memo. -/
def get_task_specific_children (task : Nat) :
    List Blueprint → ComponentMap → List Nat × ComponentMap
  | [], m => ([], m)
  | c :: cs, m =>
    let r1 := get_task_specific task c m
    let r2 := get_task_specific_children task cs r1.2
    (r1.1 :: r2.1, r2.2)
end

/-- The open-list well-formedness invariant behind claim C10: every StateID
present in the open list has a node that is open or closed — in particular
never dead_end (and never new). -/
def openListInv (σ : EagerState) : Prop :=
  ∀ k id, (k, id) ∈ σ.open_list → (σ.nodes id).status = .OPEN ∨ (σ.nodes id).status = .CLOSED

/-- The expansion-counting invariant behind claim C1 (for runs without
reopening): the ghost expansion count of a state is 1 when its node is
closed and 0 otherwise. -/
def expandedMatchesClosed (σ : EagerState) : Prop :=
  ∀ s, σ.expanded_count s = if (σ.nodes s).status = .CLOSED then 1 else 0

-- ===================================================================
-- Concrete instances used by the witnesses
-- ===================================================================

/-- A small concrete eager configuration: chain 0 → 1 → 2 with goal 2,
no lazy evaluator, no reopening. -/
def cfgChain : EagerConfig :=
  { reopen_closed_nodes := false
    bound := 100
    lazy_evaluator := none
    lazyValue := fun _ _ => 0
    openIsDeadEnd := fun _ _ => false
    openKey := fun _ g => g
    isGoal := fun s => s = 2
    init_state := 0
    applicableOps := fun s => if s ≤ 1 then [0] else []
    opCost := fun _ => 1
    adjustedCost := fun _ => 1
    succState := fun s _ => s + 1 }

/-- The chain configuration with a (caching) lazy evaluator. -/
def cfgChainLazy : EagerConfig :=
  { cfgChain with lazy_evaluator := some { does_cache_estimates := true } }

/-- The chain configuration with a non-caching lazy evaluator. -/
def cfgChainLazyNoCache : EagerConfig :=
  { cfgChain with lazy_evaluator := some { does_cache_estimates := false } }

/-- A search state holding one open node (state 0, cached estimate 5) ready
to be popped, for exercising the lazy re-evaluation block. -/
def lazyPopState : EagerState :=
  { EagerSearch.emptyState with
    nodes := fun j =>
      if j = 0 then { status := .OPEN, g := 0, real_g := 0, parent_state_id := none, creating_op := none }
      else { status := .NEW, g := 0, real_g := 0, parent_state_id := none, creating_op := none }
    open_list := [(5, 0)]
    lazy_cache := fun j => if j = 0 then some 5 else none }

/-- A two-phase iterated configuration: phase 0 finds a plan of cost 20,
phase 1 one of cost 12, bounds passed. -/
def cfgIter : IteratedConfig :=
  { num_phases := 2
    pass_bound := true
    repeat_last_phase := false
    continue_on_fail := false
    continue_on_solve := true
    run_phase := fun idx _ => if idx = 0 then some [0, 0] else some [1]
    plan_cost := fun p => (p.map (fun op => if op = 0 then (10 : Int) else 12)).sum }

-- ===================================================================
-- Theorems
-- ===================================================================

/-- Claim C6: for every weight and child value, the weighted evaluator
computes w times the child value whenever the child value is not INFTY (and
a result is produced at all), computes exactly INFTY when the child value is
INFTY, and never carries preferred operators. -/
theorem weighted_evaluator_value (w v : Int) :
    (∀ r, v ≠ INFTY → WeightedEvaluator.compute_result w v = some r →
      r.value = v * w ∧ r.preferred_operators = []) ∧
    (v = INFTY → WeightedEvaluator.compute_result w v = some { value := INFTY, preferred_operators := [] }) ∧
    (∀ r, WeightedEvaluator.compute_result w v = some r → r.preferred_operators = []) := by
  refine ⟨?_, ?_, ?_⟩
  · intro r hv hr
    unfold WeightedEvaluator.compute_result at hr
    rw [if_pos hv] at hr
    by_cases hp : is_product_within_limits v w INT_MIN32 INT_MAX32
    · rw [if_pos hp] at hr
      cases hr
      exact ⟨rfl, rfl⟩
    · rw [if_neg hp] at hr
      cases hr
  · intro hv
    unfold WeightedEvaluator.compute_result
    subst hv
    simp
  · intro r hr
    unfold WeightedEvaluator.compute_result at hr
    by_cases hv : v ≠ INFTY
    · rw [if_pos hv] at hr
      by_cases hp : is_product_within_limits v w INT_MIN32 INT_MAX32
      · rw [if_pos hp] at hr; cases hr; rfl
      · rw [if_neg hp] at hr; cases hr
    · rw [if_neg hv] at hr
      cases hr
      rfl

/-- Witness for C6: weight 2 on child value 5 yields 10 with no preferred
operators. -/
theorem weighted_evaluator_value_witness :
    (5 : Int) ≠ INFTY ∧
    WeightedEvaluator.compute_result 2 5 = some { value := 10, preferred_operators := [] } ∧
    ({ value := 10, preferred_operators := [] } : EvaluationResult).value = 5 * 2 := by
  refine ⟨by decide, by decide, ?_⟩
  exact ((weighted_evaluator_value 2 5).1 { value := 10, preferred_operators := [] }
    (by decide) (by decide)).1 ▸ by decide

/-- Claim C7: when the product of the weight and a finite child value does
not fit in a signed 32-bit integer, compute_result hits the fatal assertion
(no result) before multiplying; in particular INT_MAX32 / 2 with weight 4. -/
theorem weighted_evaluator_overflow (w v : Int) :
    (v ≠ INFTY → is_product_within_limits v w INT_MIN32 INT_MAX32 = false →
      WeightedEvaluator.compute_result w v = none) := by
  intro hv hp
  unfold WeightedEvaluator.compute_result
  rw [if_pos hv, if_neg (by simp [hp])]

/-- Witness for C7: child value INT_MAX32 / 2 = 1073741823 with weight 4
overflows and is detected fatally. -/
theorem weighted_evaluator_overflow_witness :
    (1073741823 : Int) ≠ INFTY ∧
    WeightedEvaluator.compute_result 4 1073741823 = none := by
  refine ⟨by decide, ?_⟩
  exact weighted_evaluator_overflow 4 1073741823 (by decide) (by decide)

/-- Claim C5: step_return_value follows the spec table exactly: IN_PROGRESS
when the last phase found a solution and continue_on_solve holds, SOLVED
when it found one and continue_on_solve does not hold, IN_PROGRESS when it
failed and continue_on_fail holds, and otherwise SOLVED if any phase ever
found a solution, else FAILED. -/
theorem iterated_step_return_value_matches_table (cfg : IteratedConfig) (st : IteratedState) :
    IteratedSearch.step_return_value cfg st =
      spec_step_return_table st.last_phase_found_solution cfg.continue_on_solve
        cfg.continue_on_fail st.iterated_found_solution := by
  unfold IteratedSearch.step_return_value spec_step_return_table
  rcases h1 : st.last_phase_found_solution <;>
    rcases h2 : cfg.continue_on_solve <;>
      rcases h3 : cfg.continue_on_fail <;>
        rcases h4 : st.iterated_found_solution <;> simp [h1, h2, h3, h4]

/-- Claim C4: in one iterated step that runs a child: with pass_bound the
child runs with its bound overridden to the current best_bound; the plan is
saved, remembered and best_bound lowered to its cost exactly when that cost
is strictly below best_bound, otherwise nothing is saved and best_bound is
unchanged; and best_bound never increases, neither in the step nor along any
run. -/
theorem iterated_step_bound_passing (cfg : IteratedConfig) (st : IteratedState) (idx : Nat)
    (hrun : IteratedSearch.create_current_phase cfg st = some idx) :
    (cfg.pass_bound = true →
      (IteratedSearch.step cfg st).1.last_child_bound = some (some st.best_bound)) ∧
    (∀ found_plan,
      cfg.run_phase idx (if cfg.pass_bound then some st.best_bound else none) = some found_plan →
      (cfg.plan_cost found_plan < st.best_bound →
        (IteratedSearch.step cfg st).1.best_bound = cfg.plan_cost found_plan ∧
        (IteratedSearch.step cfg st).1.saved_plans = st.saved_plans ++ [found_plan] ∧
        (IteratedSearch.step cfg st).1.current_plan = some found_plan) ∧
      (¬ cfg.plan_cost found_plan < st.best_bound →
        (IteratedSearch.step cfg st).1.best_bound = st.best_bound ∧
        (IteratedSearch.step cfg st).1.saved_plans = st.saved_plans ∧
        (IteratedSearch.step cfg st).1.current_plan = st.current_plan)) ∧
    ((IteratedSearch.step cfg st).1.best_bound ≤ st.best_bound) ∧
    (∀ n s, (IteratedSearch.run cfg n (st, s)).1.best_bound ≤ st.best_bound) := by
  have hstep : ∀ st1 : IteratedState,
      (IteratedSearch.step cfg st1).1.best_bound ≤ st1.best_bound := by
    intro st1
    unfold IteratedSearch.step
    cases hc : IteratedSearch.create_current_phase cfg st1 with
    | none => simp
    | some j =>
      simp only
      cases hr : cfg.run_phase j (if cfg.pass_bound then some st1.best_bound else none) with
      | none => simp [hr]
      | some p =>
        simp only [hr]
        by_cases hlt : cfg.plan_cost p < st1.best_bound
        · simp [hlt]; omega
        · simp [hlt]
  refine ⟨?_, ?_, hstep st, ?_⟩
  · intro hpb
    unfold IteratedSearch.step
    rw [hrun]
    simp only [hpb, if_pos]
    cases hr : cfg.run_phase idx (some st.best_bound) with
    | none => simp [hr]
    | some p =>
      simp only [hr]
      by_cases hlt : cfg.plan_cost p < st.best_bound <;> simp [hlt]
  · intro found_plan hr
    constructor
    · intro hlt
      unfold IteratedSearch.step
      rw [hrun]
      simp [hr, hlt]
    · intro hlt
      unfold IteratedSearch.step
      rw [hrun]
      simp only [hr]
      simp [hlt]
  · intro n
    induction n with
    | zero => intro s; exact le_refl _
    | succ k ih =>
      intro s
      show (IteratedSearch.run cfg (Nat.succ k) (st, s)).1.best_bound ≤ st.best_bound
      unfold IteratedSearch.run
      by_cases hs : s = .IN_PROGRESS
      · rw [if_pos hs]
        have hmono : ∀ m (st2 : IteratedState) (s2 : SearchStatus),
            (IteratedSearch.run cfg m (st2, s2)).1.best_bound ≤ st2.best_bound := by
          intro m
          induction m with
          | zero => intro st2 s2; exact le_refl _
          | succ k2 ih2 =>
            intro st2 s2
            unfold IteratedSearch.run
            by_cases hs2 : s2 = .IN_PROGRESS
            · rw [if_pos hs2]
              calc (IteratedSearch.run cfg k2 (IteratedSearch.step cfg st2)).1.best_bound
                  ≤ (IteratedSearch.step cfg st2).1.best_bound := by
                    have := ih2 (IteratedSearch.step cfg st2).1 (IteratedSearch.step cfg st2).2
                    simpa using this
                _ ≤ st2.best_bound := hstep st2
            · rw [if_neg hs2]
        calc (IteratedSearch.run cfg k (IteratedSearch.step cfg st)).1.best_bound
            ≤ (IteratedSearch.step cfg st).1.best_bound := by
              have := hmono k (IteratedSearch.step cfg st).1 (IteratedSearch.step cfg st).2
              simpa using this
          _ ≤ st.best_bound := hstep st
      · rw [if_neg hs]

/-- Witness for C4: on the two-phase configuration from phase 0 with bound
100, the child receives bound 100 and the cost-20 plan lowers best_bound. -/
theorem iterated_step_bound_passing_witness :
    IteratedSearch.create_current_phase cfgIter (IteratedSearch.init 100) = some 0 ∧
    (IteratedSearch.step cfgIter (IteratedSearch.init 100)).1.last_child_bound =
      some (some 100) ∧
    (IteratedSearch.step cfgIter (IteratedSearch.init 100)).1.best_bound ≤ 100 := by
  have h := iterated_step_bound_passing cfgIter (IteratedSearch.init 100) 0 (by decide)
  exact ⟨by decide, h.1 rfl, h.2.2.1⟩

/-- Claim C8: constructing an eager search with a lazy_evaluator that does
not cache estimates exits fatally with SEARCH_INPUT_ERROR; construction with
no lazy_evaluator or with a caching one succeeds. -/
theorem eager_construct_lazy_must_cache (cfg : EagerConfig) :
    (∀ lazy_eval, cfg.lazy_evaluator = some lazy_eval →
      lazy_eval.does_cache_estimates = false →
      EagerSearch.construct cfg = .error .SEARCH_INPUT_ERROR) ∧
    (cfg.lazy_evaluator = none → EagerSearch.construct cfg = .ok cfg) ∧
    (∀ lazy_eval, cfg.lazy_evaluator = some lazy_eval →
      lazy_eval.does_cache_estimates = true →
      EagerSearch.construct cfg = .ok cfg) := by
  refine ⟨?_, ?_, ?_⟩
  · intro le hle hcache
    unfold EagerSearch.construct
    rw [hle]
    simp [hcache]
  · intro hle
    unfold EagerSearch.construct
    rw [hle]
  · intro le hle hcache
    unfold EagerSearch.construct
    rw [hle]
    simp [hcache]

/-- Witness for C8: a non-caching lazy evaluator is rejected fatally while
the caching and absent variants construct fine. -/
theorem eager_construct_lazy_must_cache_witness :
    EagerSearch.construct cfgChainLazyNoCache = .error .SEARCH_INPUT_ERROR ∧
    EagerSearch.construct cfgChain = .ok cfgChain ∧
    EagerSearch.construct cfgChainLazy = .ok cfgChainLazy := by
  refine ⟨?_, ?_, ?_⟩
  · exact (eager_construct_lazy_must_cache cfgChainLazyNoCache).1
      { does_cache_estimates := false } rfl rfl
  · exact (eager_construct_lazy_must_cache cfgChain).2.1 rfl
  · exact (eager_construct_lazy_must_cache cfgChainLazy).2.2
      { does_cache_estimates := true } rfl rfl

/-- After binding a blueprint, the memo holds the resulting concrete
instance under the key (task, root identity): in the reuse case the lookup
already returned it, and in the construction case the root entry is the most
recent binding added. -/
theorem get_task_specific_memoises (task : Nat) (B : Blueprint) (m : ComponentMap) :
    lookupMemo (get_task_specific task B m).2.table (task, B.ident) =
      some (get_task_specific task B m).1 := by
  cases B with
  | mk i cs =>
    unfold get_task_specific
    cases h : lookupMemo m.table (task, i) with
    | some c => simpa [Blueprint.ident] using h
    | none => simp [Blueprint.ident, lookupMemo]

/-- Claim C9: binding is memoised and idempotent: binding the same blueprint
to the same task with the memo produced by a first binding returns the
identical concrete instance and leaves the memo (and the construction
counter) untouched, i.e. the second call is a pure lookup. -/
theorem get_task_specific_idempotent (task : Nat) (B : Blueprint) (m : ComponentMap) :
    get_task_specific task B (get_task_specific task B m).2 =
      ((get_task_specific task B m).1, (get_task_specific task B m).2) := by
  have hmem := get_task_specific_memoises task B m
  cases B with
  | mk i cs =>
    conv_lhs => unfold get_task_specific
    rw [show Blueprint.ident (.mk i cs) = i from rfl] at hmem
    rw [hmem]

/-- Claim C2: in the selection loop with a lazy_evaluator configured, once
the minimum entry (key k, state id) has been removed: a dead_end node is
skipped with no expansion; with a cached estimate, a context that the open
list reports dead is marked dead_end and counted without expansion; a
recomputed value differing from the cache re-inserts the entry under its
current key without expansion; and only an equal recomputation closes the
node and counts the expansion. -/
theorem eager_lazy_reevaluation (cfg : EagerConfig) (σ : EagerState) (k : Int)
    (id : Nat) (rest : List (Int × Nat))
    (hl : cfg.lazy_evaluator.isSome = true)
    (hrm : removeMin σ.open_list = some ((k, id), rest)) :
    ((σ.nodes id).status = .DEAD_END →
      EagerSearch.popIteration cfg σ = .cont { σ with open_list := rest }) ∧
    (∀ old_h, (σ.nodes id).status ≠ .CLOSED → (σ.nodes id).status ≠ .DEAD_END →
      σ.lazy_cache id = some old_h →
      ((cfg.openIsDeadEnd id (σ.nodes id).g = true →
        ∃ σr, EagerSearch.popIteration cfg σ = .cont σr ∧
          (σr.nodes id).status = .DEAD_END ∧
          σr.stats.dead_ends = σ.stats.dead_ends + 1 ∧
          σr.stats.expanded = σ.stats.expanded ∧
          σr.open_list = rest) ∧
      (cfg.openIsDeadEnd id (σ.nodes id).g = false →
        cfg.lazyValue id (σ.nodes id).g ≠ old_h →
        ∃ σr, EagerSearch.popIteration cfg σ = .cont σr ∧
          σr.open_list = rest ++ [(cfg.openKey id (σ.nodes id).g, id)] ∧
          σr.nodes = σ.nodes ∧
          σr.stats.expanded = σ.stats.expanded) ∧
      (cfg.openIsDeadEnd id (σ.nodes id).g = false →
        cfg.lazyValue id (σ.nodes id).g = old_h →
        ∃ σr, EagerSearch.popIteration cfg σ = .selected σr id ∧
          (σr.nodes id).status = .CLOSED ∧
          σr.stats.expanded = σ.stats.expanded + 1))) := by
  constructor
  · intro hdead
    unfold EagerSearch.popIteration
    rw [hrm]
    simp only [hdead]
    rw [if_neg (by decide), if_pos hl]
    simp
  · intro old_h hnc hnd hcache
    have hbranch :
        EagerSearch.popIteration cfg σ =
          (let σ1 : EagerState := { σ with open_list := rest }
           let n := σ1.nodes id
           let new_h := cfg.lazyValue id n.g
           let σ2 : EagerState :=
             { σ1 with lazy_cache := fun j => if j = id then some new_h else σ1.lazy_cache j }
           if cfg.openIsDeadEnd id n.g then
             .cont (inc_dead_ends (setNode σ2 id (nodeMarkDeadEnd n)))
           else if new_h ≠ old_h then
             .cont (insertOpen σ2 (cfg.openKey id n.g) id)
           else
             .selected (closeAndCount σ2 id) id) := by
      unfold EagerSearch.popIteration
      rw [hrm]
      simp only
      rw [if_neg (by simpa using hnc), if_pos hl, if_neg (by simpa using hnd)]
      have : ({ σ with open_list := rest } : EagerState).lazy_cache id = some old_h := hcache
      rw [this]
    refine ⟨?_, ?_, ?_⟩
    · intro hde
      rw [hbranch]
      simp [hde, inc_dead_ends, setNode, nodeMarkDeadEnd]
    · intro hde hne
      rw [hbranch]
      simp [hde, hne, insertOpen]
    · intro hde heq
      rw [hbranch]
      simp [hde, heq, closeAndCount, bumpExpandedCount, inc_expanded, setNode, nodeClose]

/-- Witness for C2: with the caching lazy configuration, popping state 0
whose cached estimate 5 differs from the recomputed 0 re-inserts it under
its current key without expanding. -/
theorem eager_lazy_reevaluation_witness :
    cfgChainLazy.lazy_evaluator.isSome = true ∧
    removeMin lazyPopState.open_list = some ((5, 0), []) ∧
    (∃ σr, EagerSearch.popIteration cfgChainLazy lazyPopState = .cont σr ∧
      σr.open_list = [] ++ [(cfgChainLazy.openKey 0 (lazyPopState.nodes 0).g, 0)] ∧
      σr.nodes = lazyPopState.nodes ∧
      σr.stats.expanded = lazyPopState.stats.expanded) := by
  refine ⟨by decide, by decide, ?_⟩
  exact ((eager_lazy_reevaluation cfgChainLazy lazyPopState 5 0 []
    (by decide) (by decide)).2 5 (by decide) (by decide) (by decide)).2.1
    (by decide) (by decide)

/-- Claim C3: in the successor loop, an applicable operator is skipped (no
successor generated, nothing inserted, state untouched) exactly when
real_g of the expanded node plus the unadjusted operator cost reaches the
bound; below the bound the successor is generated, and a new successor is
opened with g equal to the parent g plus the cost_type-adjusted cost. -/
theorem eager_bound_uses_real_cost (cfg : EagerConfig) (σ : EagerState) (id op : Nat) :
    ((σ.nodes id).real_g + cfg.opCost op ≥ cfg.bound →
      EagerSearch.processSuccessor cfg id σ op = σ) ∧
    ((σ.nodes id).real_g + cfg.opCost op < cfg.bound →
      (EagerSearch.processSuccessor cfg id σ op).stats.generated = σ.stats.generated + 1) ∧
    ((σ.nodes id).real_g + cfg.opCost op < cfg.bound →
      (σ.nodes (cfg.succState id op)).status = .NEW →
      cfg.openIsDeadEnd (cfg.succState id op) ((σ.nodes id).g + cfg.adjustedCost op) = false →
      ((EagerSearch.processSuccessor cfg id σ op).nodes (cfg.succState id op)).g =
        (σ.nodes id).g + cfg.adjustedCost op ∧
      ((EagerSearch.processSuccessor cfg id σ op).nodes (cfg.succState id op)).real_g =
        (σ.nodes id).real_g + cfg.opCost op) := by
  refine ⟨?_, ?_, ?_⟩
  · intro hge
    unfold EagerSearch.processSuccessor
    rw [if_pos hge]
  · intro hlt
    unfold EagerSearch.processSuccessor
    rw [if_neg (by omega)]
    simp only
    split
    · simp [inc_generated]
    · split
      · split
        · simp [inc_dead_ends, setNode, inc_evaluated_states, inc_generated]
        · simp [insertOpen, setNode, inc_evaluated_states, inc_generated]
      · split
        · split
          · split <;> simp [insertOpen, setNode, inc_reopened, inc_generated]
          · simp [setNode, inc_generated]
        · simp [inc_generated]
  · intro hlt hnew hde
    unfold EagerSearch.processSuccessor
    rw [if_neg (by omega)]
    have hgen : (inc_generated σ).nodes = σ.nodes := rfl
    simp only [hgen]
    rw [if_neg (by rw [hnew]; decide), if_pos hnew, if_neg (by simp [hde])]
    constructor
    · simp [insertOpen, setNode, inc_evaluated_states, inc_generated, nodeOpenFrom]
    · simp [insertOpen, setNode, inc_evaluated_states, inc_generated, nodeOpenFrom]

/-- Witness for C3: expanding the freshly initialized chain at state 0 with
operator 0, the bound 100 is not reached, the successor is generated and
opened with g = 0 + 1. -/
theorem eager_bound_uses_real_cost_witness :
    ((EagerSearch.init cfgChain).nodes 0).real_g + cfgChain.opCost 0 < cfgChain.bound ∧
    (EagerSearch.processSuccessor cfgChain 0 (EagerSearch.init cfgChain) 0).stats.generated =
      (EagerSearch.init cfgChain).stats.generated + 1 ∧
    ((EagerSearch.processSuccessor cfgChain 0 (EagerSearch.init cfgChain) 0).nodes 1).g =
      ((EagerSearch.init cfgChain).nodes 0).g + cfgChain.adjustedCost 0 := by
  refine ⟨by decide, ?_, ?_⟩
  · exact (eager_bound_uses_real_cost cfgChain (EagerSearch.init cfgChain) 0 0).2.1
      (by decide)
  · exact ((eager_bound_uses_real_cost cfgChain (EagerSearch.init cfgChain) 0 0).2.2
      (by decide) (by decide) (by decide)).1

/-- Removing the first entry with a given key yields an entry of the list
and keeps only entries of the list. -/
theorem removeFirstWithKey_mem (k : Int) :
    ∀ (l : List (Int × Nat)) (id : Nat) (t : List (Int × Nat)),
      removeFirstWithKey k l = some (id, t) → ((k, id) ∈ l ∧ ∀ e ∈ t, e ∈ l) := by
  intro l
  induction l with
  | nil => intro id t h; simp [removeFirstWithKey] at h
  | cons hd tl ih =>
    intro id t h
    obtain ⟨k1, j⟩ := hd
    unfold removeFirstWithKey at h
    by_cases hk : k1 = k
    · rw [if_pos hk] at h
      cases h
      subst hk
      exact ⟨List.mem_cons_self _ _, fun e he => List.mem_cons_of_mem _ he⟩
    · rw [if_neg hk] at h
      cases hrec : removeFirstWithKey k tl with
      | none => rw [hrec] at h; cases h
      | some p =>
        obtain ⟨id1, t1⟩ := p
        rw [hrec] at h
        cases h
        obtain ⟨h1, h2⟩ := ih _ _ hrec
        refine ⟨List.mem_cons_of_mem _ h1, ?_⟩
        intro e he
        rcases List.mem_cons.mp he with he | he
        · subst he; exact List.mem_cons_self _ _
        · exact List.mem_cons_of_mem _ (h2 e he)

/-- remove_min pops an entry of the open list and keeps only entries of the
open list. -/
theorem removeMin_mem (l : List (Int × Nat)) (k : Int) (id : Nat)
    (rest : List (Int × Nat)) (h : removeMin l = some ((k, id), rest)) :
    ((k, id) ∈ l ∧ ∀ e ∈ rest, e ∈ l) := by
  cases l with
  | nil => simp [removeMin] at h
  | cons hd tl =>
    obtain ⟨k0, id0⟩ := hd
    unfold removeMin at h
    simp only at h
    cases hrf : removeFirstWithKey (minKeyFrom k0 tl) ((k0, id0) :: tl) with
    | none => rw [hrf] at h; cases h
    | some p =>
      obtain ⟨id1, rest1⟩ := p
      rw [hrf] at h
      cases h
      exact removeFirstWithKey_mem _ _ _ _ hrf

/-- A property preserved by each fold step is preserved by the fold. -/
theorem foldl_preserves {α β : Type} (P : α → Prop) (f : α → β → α)
    (hf : ∀ a b, P a → P (f a b)) :
    ∀ (l : List β) (a : α), P a → P (l.foldl f a) := by
  intro l
  induction l with
  | nil => intro a ha; exact ha
  | cons b bs ih => intro a ha; exact ih (f a b) (hf a b ha)

/-- Exhaustive description of one selection-loop iteration: either the open
list is empty (failed), or the popped entry (with remainder a sublist of the
open list) leads to a stale skip, a lazy dead-node skip, a lazy dead-end
marking, a lazy re-insertion, or the node is closed and counted. -/
theorem popIteration_cases (cfg : EagerConfig) (σ : EagerState) (r : PopResult)
    (hp : EagerSearch.popIteration cfg σ = r) :
    (r = .failed) ∨
    (∃ id rest, (∃ k0, (k0, id) ∈ σ.open_list) ∧ (∀ e ∈ rest, e ∈ σ.open_list) ∧
      (((σ.nodes id).status = .CLOSED ∧
        ∃ σ1, r = .cont σ1 ∧ σ1.nodes = σ.nodes ∧
          σ1.expanded_count = σ.expanded_count ∧ σ1.open_list = rest) ∨
      (cfg.lazy_evaluator.isSome = true ∧ (σ.nodes id).status = .DEAD_END ∧
        ∃ σ1, r = .cont σ1 ∧ σ1.nodes = σ.nodes ∧
          σ1.expanded_count = σ.expanded_count ∧ σ1.open_list = rest) ∨
      (cfg.lazy_evaluator.isSome = true ∧ (σ.nodes id).status ≠ .CLOSED ∧
        ∃ σ1, r = .cont σ1 ∧
          σ1.nodes = (fun j => if j = id then nodeMarkDeadEnd (σ.nodes id) else σ.nodes j) ∧
          σ1.expanded_count = σ.expanded_count ∧ σ1.open_list = rest) ∨
      (cfg.lazy_evaluator.isSome = true ∧ (σ.nodes id).status ≠ .CLOSED ∧
        ∃ σ1, r = .cont σ1 ∧ σ1.nodes = σ.nodes ∧
          σ1.expanded_count = σ.expanded_count ∧
          σ1.open_list = rest ++ [(cfg.openKey id (σ.nodes id).g, id)]) ∨
      ((σ.nodes id).status ≠ .CLOSED ∧
        ∃ σ1, r = .selected σ1 id ∧
          σ1.nodes = (fun j => if j = id then nodeClose (σ.nodes id) else σ.nodes j) ∧
          σ1.expanded_count =
            (fun j => if j = id then σ.expanded_count j + 1 else σ.expanded_count j) ∧
          σ1.open_list = rest))) := by
  unfold EagerSearch.popIteration at hp
  split at hp
  · left; exact hp.symm
  · rename_i k id rest hrm
    right
    refine ⟨id, rest, ⟨k, (removeMin_mem _ _ _ _ hrm).1⟩, (removeMin_mem _ _ _ _ hrm).2, ?_⟩
    simp only at hp
    split at hp
    · rename_i hcl
      exact Or.inl ⟨hcl, _, hp.symm, rfl, rfl, rfl⟩
    · rename_i hcl
      split at hp
      · rename_i hlazy
        split at hp
        · rename_i hdead
          exact Or.inr (Or.inl ⟨by simpa using hlazy, hdead, _, hp.symm, rfl, rfl, rfl⟩)
        · rename_i hdead
          split at hp
          · rename_i old_h hcache
            split at hp
            · rename_i hde
              refine Or.inr (Or.inr (Or.inl ⟨by simpa using hlazy, hcl, _, hp.symm, ?_, rfl, rfl⟩))
              funext j
              by_cases hj : j = id <;>
                simp [inc_dead_ends, setNode, hj]
            · rename_i hde
              split at hp
              · rename_i hne
                refine Or.inr (Or.inr (Or.inr (Or.inl
                  ⟨by simpa using hlazy, hcl, _, hp.symm, rfl, rfl, rfl⟩)))
              · rename_i hne
                refine Or.inr (Or.inr (Or.inr (Or.inr ⟨hcl, _, hp.symm, ?_, rfl, rfl⟩)))
                funext j
                by_cases hj : j = id <;>
                  simp [closeAndCount, bumpExpandedCount, inc_expanded, setNode, hj]
          · refine Or.inr (Or.inr (Or.inr (Or.inr ⟨hcl, _, hp.symm, ?_, rfl, rfl⟩)))
            funext j
            by_cases hj : j = id <;>
              simp [closeAndCount, bumpExpandedCount, inc_expanded, setNode, hj]
      · refine Or.inr (Or.inr (Or.inr (Or.inr ⟨hcl, _, hp.symm, ?_, rfl, rfl⟩)))
        funext j
        by_cases hj : j = id <;>
          simp [closeAndCount, bumpExpandedCount, inc_expanded, setNode, hj]

/-- Without a lazy_evaluator, one selection-loop iteration preserves the
open-list invariant. -/
theorem openListInv_popIteration (cfg : EagerConfig) (hl : cfg.lazy_evaluator = none)
    (σ : EagerState) (h : openListInv σ) :
    (∀ σ1, EagerSearch.popIteration cfg σ = .cont σ1 → openListInv σ1) ∧
    (∀ σ1 id, EagerSearch.popIteration cfg σ = .selected σ1 id → openListInv σ1) := by
  have hns : cfg.lazy_evaluator.isSome = false := by rw [hl]; rfl
  constructor
  · intro σ1 hp
    rcases popIteration_cases cfg σ _ hp with hfail | ⟨id, rest, _, hsub, hcases⟩
    · cases hfail
    · rcases hcases with ⟨_, σ2, heq, hn, _, ho⟩ | ⟨hlz, _⟩ | ⟨hlz, _⟩ | ⟨hlz, _⟩ |
        ⟨_, σ2, heq, _⟩
      · cases heq
        intro k1 j hj
        rw [ho] at hj
        rw [hn]
        exact h k1 j (hsub _ hj)
      · rw [hns] at hlz; cases hlz
      · rw [hns] at hlz; cases hlz
      · rw [hns] at hlz; cases hlz
      · cases heq
  · intro σ1 id0 hp
    rcases popIteration_cases cfg σ _ hp with hfail | ⟨id, rest, _, hsub, hcases⟩
    · cases hfail
    · rcases hcases with ⟨_, σ2, heq, _⟩ | ⟨_, _, σ2, heq, _⟩ | ⟨_, _, σ2, heq, _⟩ |
        ⟨_, _, σ2, heq, _⟩ | ⟨_, σ2, heq, hn, _, ho⟩
      · cases heq
      · cases heq
      · cases heq
      · cases heq
      · cases heq
        intro k1 j hj
        rw [ho] at hj
        rw [hn]
        by_cases hji : j = id0
        · subst hji
          right
          simp [nodeClose]
        · simp only [hji, if_false]
          exact h k1 j (hsub _ hj)

/-- The successor loop body preserves the open-list invariant (a state is
only marked dead before it was ever inserted; insertions always concern
nodes just set to open). -/
theorem openListInv_processSuccessor (cfg : EagerConfig) (id op : Nat) (σ : EagerState)
    (h : openListInv σ) : openListInv (EagerSearch.processSuccessor cfg id σ op) := by
  simp only [EagerSearch.processSuccessor]
  split
  · exact h
  · split
    · exact h
    · split
      · rename_i hdead hnew
        have hnew2 : (σ.nodes (cfg.succState id op)).status = NodeStatus.NEW := hnew
        split
        · intro k1 j hj
          simp only [inc_dead_ends, setNode, inc_evaluated_states, inc_generated] at hj ⊢
          by_cases hjs : j = cfg.succState id op
          · exfalso
            have hmem := h k1 j hj
            rw [hjs] at hmem
            rcases hmem with h1 | h1 <;> rw [hnew2] at h1 <;> cases h1
          · simp only [hjs, if_false]
            exact h k1 j hj
        · intro k1 j hj
          simp only [insertOpen, setNode, inc_evaluated_states, inc_generated] at hj ⊢
          rcases List.mem_append.mp hj with hj1 | hj1
          · by_cases hjs : j = cfg.succState id op
            · exfalso
              have hmem := h k1 j hj1
              rw [hjs] at hmem
              rcases hmem with h1 | h1 <;> rw [hnew2] at h1 <;> cases h1
            · simp only [hjs, if_false]
              exact h k1 j hj1
          · have : j = cfg.succState id op := by
              simpa using (Prod.mk.injEq _ _ _ _ ▸ List.mem_singleton.mp hj1).2
            subst this
            left
            simp [nodeOpenFrom]
      · split
        · split
          · split <;>
            · intro k1 j hj
              simp only [insertOpen, setNode, inc_reopened, inc_generated] at hj ⊢
              rcases List.mem_append.mp hj with hj1 | hj1
              · by_cases hjs : j = cfg.succState id op
                · subst hjs
                  left
                  simp [nodeReopenFrom]
                · simp only [hjs, if_false]
                  exact h k1 j hj1
              · have : j = cfg.succState id op := by
                  simpa using (Prod.mk.injEq _ _ _ _ ▸ List.mem_singleton.mp hj1).2
                subst this
                left
                simp [nodeReopenFrom]
          · intro k1 j hj
            simp only [setNode, inc_generated] at hj ⊢
            by_cases hjs : j = cfg.succState id op
            · subst hjs
              have hmem := h k1 _ hj
              simpa [nodeUpdateParent] using hmem
            · simp only [hjs, if_false]
              exact h k1 j hj
        · exact h

/-- Without a lazy_evaluator, the whole selection loop preserves the
open-list invariant. -/
theorem openListInv_selectLoop (cfg : EagerConfig) (hl : cfg.lazy_evaluator = none) :
    ∀ (fuel : Nat) (σ : EagerState), openListInv σ →
      openListInv (EagerSearch.selectLoop cfg fuel σ).1 := by
  intro fuel
  induction fuel with
  | zero => intro σ h; exact h
  | succ f ih =>
    intro σ h
    unfold EagerSearch.selectLoop
    cases hp : EagerSearch.popIteration cfg σ with
    | failed => exact h
    | cont σ1 => exact ih σ1 ((openListInv_popIteration cfg hl σ h).1 σ1 hp)
    | selected σ1 id => exact (openListInv_popIteration cfg hl σ h).2 σ1 id hp

/-- The expansion phase preserves the open-list invariant. -/
theorem openListInv_expandPhase (cfg : EagerConfig) (σ : EagerState) (id : Nat)
    (h : openListInv σ) : openListInv (EagerSearch.expandPhase cfg σ id).1 := by
  unfold EagerSearch.expandPhase
  split
  · exact h
  · exact foldl_preserves openListInv (EagerSearch.processSuccessor cfg id)
      (fun a b ha => openListInv_processSuccessor cfg id b a ha) _ σ h

/-- Without a lazy_evaluator, one full step preserves the open-list
invariant. -/
theorem openListInv_step (cfg : EagerConfig) (hl : cfg.lazy_evaluator = none)
    (fuel : Nat) (σ : EagerState) (h : openListInv σ) :
    openListInv (EagerSearch.step cfg fuel σ).1 := by
  unfold EagerSearch.step
  cases hsel : EagerSearch.selectLoop cfg fuel σ with
  | mk σ1 r =>
    have h1 : openListInv σ1 := by
      have := openListInv_selectLoop cfg hl fuel σ h
      rw [hsel] at this
      exact this
    cases r with
    | failed => exact h1
    | out_of_fuel => exact h1
    | selected id => exact openListInv_expandPhase cfg σ1 id h1

/-- Without a lazy_evaluator, any number of steps preserves the open-list
invariant. -/
theorem openListInv_run (cfg : EagerConfig) (hl : cfg.lazy_evaluator = none) :
    ∀ (n fuel : Nat) (σ : EagerState) (s : SearchStatus), openListInv σ →
      openListInv (EagerSearch.run cfg fuel n (σ, s)).1 := by
  intro n
  induction n with
  | zero => intro fuel σ s h; exact h
  | succ n1 ih =>
    intro fuel σ s h
    unfold EagerSearch.run
    by_cases hs : s = .IN_PROGRESS
    · rw [if_pos hs]
      have := ih fuel (EagerSearch.step cfg fuel σ).1 (EagerSearch.step cfg fuel σ).2
        (openListInv_step cfg hl fuel σ h)
      simpa using this
    · rw [if_neg hs]
      exact h

/-- The initialized engine satisfies the open-list invariant: either nothing
was inserted, or only the initial state with its node just opened. -/
theorem openListInv_init (cfg : EagerConfig) :
    openListInv (EagerSearch.init cfg) := by
  unfold EagerSearch.init
  split
  · intro k1 j hj
    simp [inc_evaluated_states, EagerSearch.emptyState] at hj
  · intro k1 j hj
    simp only [insertOpen, setNode, inc_evaluated_states, EagerSearch.emptyState] at hj ⊢
    have : j = cfg.init_state := by
      simpa using (Prod.mk.injEq _ _ _ _ ▸ List.mem_singleton.mp hj).2
    subst this
    left
    simp [nodeOpenInitial]

/-- One selection-loop iteration preserves the expansion-counting invariant:
expansions are counted exactly at the not-closed-to-closed transition. -/
theorem expInv_popIteration (cfg : EagerConfig) (σ : EagerState)
    (h : expandedMatchesClosed σ) :
    (∀ σ1, EagerSearch.popIteration cfg σ = .cont σ1 → expandedMatchesClosed σ1) ∧
    (∀ σ1 id, EagerSearch.popIteration cfg σ = .selected σ1 id →
      expandedMatchesClosed σ1) := by
  constructor
  · intro σ1 hp
    rcases popIteration_cases cfg σ _ hp with hfail | ⟨id, rest, _, _, hcases⟩
    · cases hfail
    · rcases hcases with ⟨_, σ2, heq, hn, he, _⟩ | ⟨_, _, σ2, heq, hn, he, _⟩ |
        ⟨_, hnc, σ2, heq, hn, he, _⟩ | ⟨_, _, σ2, heq, hn, he, _⟩ | ⟨_, σ2, heq, _⟩
      · cases heq; intro s; rw [hn, he]; exact h s
      · cases heq; intro s; rw [hn, he]; exact h s
      · cases heq
        intro s
        rw [hn, he]
        by_cases hs : s = id
        · subst hs
          have h0 : σ.expanded_count s = 0 := by
            have hh := h s
            rw [if_neg hnc] at hh
            exact hh
          simp [nodeMarkDeadEnd, h0]
        · simp only [hs, if_false]
          exact h s
      · cases heq; intro s; rw [hn, he]; exact h s
      · cases heq
  · intro σ1 id0 hp
    rcases popIteration_cases cfg σ _ hp with hfail | ⟨id, rest, _, _, hcases⟩
    · cases hfail
    · rcases hcases with ⟨_, σ2, heq, _⟩ | ⟨_, _, σ2, heq, _⟩ | ⟨_, _, σ2, heq, _⟩ |
        ⟨_, _, σ2, heq, _⟩ | ⟨hnc, σ2, heq, hn, he, _⟩
      · cases heq
      · cases heq
      · cases heq
      · cases heq
      · cases heq
        intro s
        rw [hn, he]
        by_cases hs : s = id0
        · subst hs
          have h0 : σ.expanded_count s = 0 := by
            have hh := h s
            rw [if_neg hnc] at hh
            exact hh
          simp [nodeClose, h0]
        · simp only [hs, if_false]
          exact h s

/-- Without reopening, the successor loop body preserves the
expansion-counting invariant (nothing becomes closed, nothing is counted). -/
theorem expInv_processSuccessor (cfg : EagerConfig) (hr : cfg.reopen_closed_nodes = false)
    (id op : Nat) (σ : EagerState) (h : expandedMatchesClosed σ) :
    expandedMatchesClosed (EagerSearch.processSuccessor cfg id σ op) := by
  simp only [EagerSearch.processSuccessor]
  split
  · exact h
  · split
    · exact h
    · split
      · rename_i hdead hnew
        have hnew2 : (σ.nodes (cfg.succState id op)).status = NodeStatus.NEW := hnew
        have h0 : σ.expanded_count (cfg.succState id op) = 0 := by
          have hh := h (cfg.succState id op)
          rw [hnew2] at hh
          simpa using hh
        split
        · intro s
          simp only [inc_dead_ends, setNode, inc_evaluated_states, inc_generated]
          by_cases hs : s = cfg.succState id op
          · subst hs
            simp [nodeMarkDeadEnd, h0]
          · simp only [hs, if_false]
            exact h s
        · intro s
          simp only [insertOpen, setNode, inc_evaluated_states, inc_generated]
          by_cases hs : s = cfg.succState id op
          · subst hs
            simp [nodeOpenFrom, h0]
          · simp only [hs, if_false]
            exact h s
      · split
        · split
          · rename_i hreo
            rw [hr] at hreo
            cases hreo
          · intro s
            simp only [setNode, inc_generated]
            by_cases hs : s = cfg.succState id op
            · subst hs
              simp only [if_pos rfl]
              simpa [nodeUpdateParent] using h (cfg.succState id op)
            · simp only [hs, if_false]
              exact h s
        · exact h

/-- One selection-loop iteration never turns a closed node into a non-closed
one. -/
theorem closedMono_popIteration (cfg : EagerConfig) (σ : EagerState) (s : Nat)
    (hcl : (σ.nodes s).status = .CLOSED) :
    (∀ σ1, EagerSearch.popIteration cfg σ = .cont σ1 → (σ1.nodes s).status = .CLOSED) ∧
    (∀ σ1 id, EagerSearch.popIteration cfg σ = .selected σ1 id →
      (σ1.nodes s).status = .CLOSED) := by
  constructor
  · intro σ1 hp
    rcases popIteration_cases cfg σ _ hp with hfail | ⟨id, rest, _, _, hcases⟩
    · cases hfail
    · rcases hcases with ⟨_, σ2, heq, hn, _⟩ | ⟨_, _, σ2, heq, hn, _⟩ |
        ⟨_, hnc, σ2, heq, hn, _⟩ | ⟨_, _, σ2, heq, hn, _⟩ | ⟨_, σ2, heq, _⟩
      · cases heq; rw [hn]; exact hcl
      · cases heq; rw [hn]; exact hcl
      · cases heq
        rw [hn]
        by_cases hs : s = id
        · subst hs; exact absurd hcl hnc
        · simp only [hs, if_false]; exact hcl
      · cases heq; rw [hn]; exact hcl
      · cases heq
  · intro σ1 id0 hp
    rcases popIteration_cases cfg σ _ hp with hfail | ⟨id, rest, _, _, hcases⟩
    · cases hfail
    · rcases hcases with ⟨_, σ2, heq, _⟩ | ⟨_, _, σ2, heq, _⟩ | ⟨_, _, σ2, heq, _⟩ |
        ⟨_, _, σ2, heq, _⟩ | ⟨hnc, σ2, heq, hn, _⟩
      · cases heq
      · cases heq
      · cases heq
      · cases heq
      · cases heq
        rw [hn]
        by_cases hs : s = id0
        · subst hs; simp [nodeClose]
        · simp only [hs, if_false]; exact hcl

/-- Without reopening, the successor loop body never turns a closed node
into a non-closed one (update_parent keeps the status). -/
theorem closedMono_processSuccessor (cfg : EagerConfig)
    (hr : cfg.reopen_closed_nodes = false) (id op : Nat) (σ : EagerState) (s : Nat)
    (hcl : (σ.nodes s).status = .CLOSED) :
    ((EagerSearch.processSuccessor cfg id σ op).nodes s).status = .CLOSED := by
  simp only [EagerSearch.processSuccessor]
  split
  · exact hcl
  · split
    · exact hcl
    · split
      · rename_i hdead hnew
        have hnew2 : (σ.nodes (cfg.succState id op)).status = NodeStatus.NEW := hnew
        split
        · simp only [inc_dead_ends, setNode, inc_evaluated_states, inc_generated]
          by_cases hs : s = cfg.succState id op
          · subst hs; rw [hnew2] at hcl; cases hcl
          · simp only [hs, if_false]; exact hcl
        · simp only [insertOpen, setNode, inc_evaluated_states, inc_generated]
          by_cases hs : s = cfg.succState id op
          · subst hs; rw [hnew2] at hcl; cases hcl
          · simp only [hs, if_false]; exact hcl
      · split
        · split
          · rename_i hreo
            rw [hr] at hreo
            cases hreo
          · simp only [setNode, inc_generated]
            by_cases hs : s = cfg.succState id op
            · subst hs
              simp only [if_pos rfl]
              simpa [nodeUpdateParent] using hcl
            · simp only [hs, if_false]; exact hcl
        · exact hcl

/-- The selection loop preserves the expansion-counting invariant. -/
theorem expInv_selectLoop (cfg : EagerConfig) :
    ∀ (fuel : Nat) (σ : EagerState), expandedMatchesClosed σ →
      expandedMatchesClosed (EagerSearch.selectLoop cfg fuel σ).1 := by
  intro fuel
  induction fuel with
  | zero => intro σ h; exact h
  | succ f ih =>
    intro σ h
    unfold EagerSearch.selectLoop
    cases hp : EagerSearch.popIteration cfg σ with
    | failed => exact h
    | cont σ1 => exact ih σ1 ((expInv_popIteration cfg σ h).1 σ1 hp)
    | selected σ1 id => exact (expInv_popIteration cfg σ h).2 σ1 id hp

/-- The selection loop keeps closed nodes closed. -/
theorem closedMono_selectLoop (cfg : EagerConfig) (s : Nat) :
    ∀ (fuel : Nat) (σ : EagerState), (σ.nodes s).status = .CLOSED →
      ((EagerSearch.selectLoop cfg fuel σ).1.nodes s).status = .CLOSED := by
  intro fuel
  induction fuel with
  | zero => intro σ h; exact h
  | succ f ih =>
    intro σ h
    unfold EagerSearch.selectLoop
    cases hp : EagerSearch.popIteration cfg σ with
    | failed => exact h
    | cont σ1 => exact ih σ1 ((closedMono_popIteration cfg σ s h).1 σ1 hp)
    | selected σ1 id => exact (closedMono_popIteration cfg σ s h).2 σ1 id hp

/-- Without reopening, the expansion phase preserves the expansion-counting
invariant. -/
theorem expInv_expandPhase (cfg : EagerConfig) (hr : cfg.reopen_closed_nodes = false)
    (σ : EagerState) (id : Nat) (h : expandedMatchesClosed σ) :
    expandedMatchesClosed (EagerSearch.expandPhase cfg σ id).1 := by
  unfold EagerSearch.expandPhase
  split
  · exact h
  · exact foldl_preserves expandedMatchesClosed (EagerSearch.processSuccessor cfg id)
      (fun a b ha => expInv_processSuccessor cfg hr id b a ha) _ σ h

/-- Without reopening, the expansion phase keeps closed nodes closed. -/
theorem closedMono_expandPhase (cfg : EagerConfig) (hr : cfg.reopen_closed_nodes = false)
    (σ : EagerState) (id s : Nat) (h : (σ.nodes s).status = .CLOSED) :
    ((EagerSearch.expandPhase cfg σ id).1.nodes s).status = .CLOSED := by
  unfold EagerSearch.expandPhase
  split
  · exact h
  · exact foldl_preserves (fun σ2 => (σ2.nodes s).status = .CLOSED)
      (EagerSearch.processSuccessor cfg id)
      (fun a b ha => closedMono_processSuccessor cfg hr id b a s ha) _ σ h

/-- Without reopening, one full step preserves the expansion-counting
invariant. -/
theorem expInv_step (cfg : EagerConfig) (hr : cfg.reopen_closed_nodes = false)
    (fuel : Nat) (σ : EagerState) (h : expandedMatchesClosed σ) :
    expandedMatchesClosed (EagerSearch.step cfg fuel σ).1 := by
  unfold EagerSearch.step
  cases hsel : EagerSearch.selectLoop cfg fuel σ with
  | mk σ1 r =>
    have h1 : expandedMatchesClosed σ1 := by
      have := expInv_selectLoop cfg fuel σ h
      rw [hsel] at this
      exact this
    cases r with
    | failed => exact h1
    | out_of_fuel => exact h1
    | selected id => exact expInv_expandPhase cfg hr σ1 id h1

/-- Without reopening, one full step keeps closed nodes closed. -/
theorem closedMono_step (cfg : EagerConfig) (hr : cfg.reopen_closed_nodes = false)
    (fuel : Nat) (σ : EagerState) (s : Nat) (h : (σ.nodes s).status = .CLOSED) :
    ((EagerSearch.step cfg fuel σ).1.nodes s).status = .CLOSED := by
  unfold EagerSearch.step
  cases hsel : EagerSearch.selectLoop cfg fuel σ with
  | mk σ1 r =>
    have h1 : (σ1.nodes s).status = .CLOSED := by
      have := closedMono_selectLoop cfg s fuel σ h
      rw [hsel] at this
      exact this
    cases r with
    | failed => exact h1
    | out_of_fuel => exact h1
    | selected id => exact closedMono_expandPhase cfg hr σ1 id s h1

/-- Without reopening, any number of steps preserves the expansion-counting
invariant. -/
theorem expInv_run (cfg : EagerConfig) (hr : cfg.reopen_closed_nodes = false) :
    ∀ (n fuel : Nat) (σ : EagerState) (s : SearchStatus), expandedMatchesClosed σ →
      expandedMatchesClosed (EagerSearch.run cfg fuel n (σ, s)).1 := by
  intro n
  induction n with
  | zero => intro fuel σ s h; exact h
  | succ n1 ih =>
    intro fuel σ s h
    unfold EagerSearch.run
    by_cases hs : s = .IN_PROGRESS
    · rw [if_pos hs]
      have := ih fuel (EagerSearch.step cfg fuel σ).1 (EagerSearch.step cfg fuel σ).2
        (expInv_step cfg hr fuel σ h)
      simpa using this
    · rw [if_neg hs]
      exact h

/-- The initialized engine satisfies the expansion-counting invariant:
nothing is closed, nothing counted. -/
theorem expInv_init (cfg : EagerConfig) :
    expandedMatchesClosed (EagerSearch.init cfg) := by
  unfold EagerSearch.init
  split
  · intro s
    simp [inc_evaluated_states, EagerSearch.emptyState]
  · intro s
    simp only [insertOpen, setNode, inc_evaluated_states, EagerSearch.emptyState]
    by_cases hs : s = cfg.init_state
    · subst hs; simp [nodeOpenInitial]
    · simp [hs]

/-- Claim C1: with reopen_closed_nodes = false, along any run from the
initialized engine no state is expanded more than once (its ghost expansion
count never exceeds 1), and once a node is closed no later step un-closes
it. -/
theorem eager_expands_each_state_at_most_once (cfg : EagerConfig)
    (hr : cfg.reopen_closed_nodes = false) :
    (∀ fuel n s,
      (EagerSearch.run cfg fuel n
        (EagerSearch.init cfg, .IN_PROGRESS)).1.expanded_count s ≤ 1) ∧
    (∀ fuel σ s, (σ.nodes s).status = .CLOSED →
      ((EagerSearch.step cfg fuel σ).1.nodes s).status = .CLOSED) := by
  constructor
  · intro fuel n s
    have hinv := expInv_run cfg hr n fuel (EagerSearch.init cfg) .IN_PROGRESS
      (expInv_init cfg)
    rw [hinv s]
    split <;> omega
  · intro fuel σ s h
    exact closedMono_step cfg hr fuel σ s h

/-- Witness for C1: after three steps of the no-reopening chain
configuration, state 0 has been expanded at most once. -/
theorem eager_expands_each_state_at_most_once_witness :
    cfgChain.reopen_closed_nodes = false ∧
    (EagerSearch.run cfgChain 4 3
      (EagerSearch.init cfgChain, .IN_PROGRESS)).1.expanded_count 0 ≤ 1 := by
  exact ⟨rfl, (eager_expands_each_state_at_most_once cfgChain rfl).1 4 3 0⟩

/-- Claim C10: with no lazy_evaluator, every state in the open list is open
or closed throughout any run from the initialized engine — in particular no
dead_end StateID is ever present in the open list, and a popped node that is
not closed is never a dead end, so closing it is legitimate. -/
theorem eager_no_dead_end_in_open (cfg : EagerConfig) (hl : cfg.lazy_evaluator = none) :
    (∀ fuel n,
      openListInv (EagerSearch.run cfg fuel n
        (EagerSearch.init cfg, .IN_PROGRESS)).1) ∧
    (∀ σ k id rest, openListInv σ → removeMin σ.open_list = some ((k, id), rest) →
      (σ.nodes id).status ≠ .DEAD_END) := by
  constructor
  · intro fuel n
    exact openListInv_run cfg hl n fuel (EagerSearch.init cfg) .IN_PROGRESS
      (openListInv_init cfg)
  · intro σ k id rest hinv hrm hd
    have hmem := (removeMin_mem _ _ _ _ hrm).1
    rcases hinv k id hmem with h1 | h1 <;> rw [hd] at h1 <;> cases h1

/-- Witness for C10: on the lazy-free chain configuration the invariant
holds after three steps, and the initial pop is not a dead end. -/
theorem eager_no_dead_end_in_open_witness :
    cfgChain.lazy_evaluator = none ∧
    openListInv (EagerSearch.run cfgChain 4 3
      (EagerSearch.init cfgChain, .IN_PROGRESS)).1 ∧
    ((EagerSearch.init cfgChain).nodes 0).status ≠ .DEAD_END := by
  refine ⟨rfl, (eager_no_dead_end_in_open cfgChain rfl).1 4 3, ?_⟩
  exact (eager_no_dead_end_in_open cfgChain rfl).2 (EagerSearch.init cfgChain)
    0 0 [] (openListInv_init cfgChain) (by decide)
